import Mathlib

/-!
Shallow embedding of `src/diet_reminder_bot.py` (a time-triggered WhatsApp
reminder scheduler) and verification of its specification claims.

The embedding models:
* calendar dates and minute-truncated local timestamps (`Date`, `PyDateTime`);
* the static daily plan (`ReminderItem`, `DAILY_PLAN`);
* configuration (`AppConfig`) and WhatsApp number normalization
  (`normalizeWhatsappNumber`, mirroring `_normalize_whatsapp_number`);
* the scheduler loop of `run` (lines 207-240): per-iteration `step`, the
  in-memory dedup ledger (`recordKey` / `isPending` over `sent_keys`), and
  the trace semantics `runTrace` over a stream of clock observations.

The external Dispatcher (Twilio) is modelled by an oracle assigning an
`Outcome` (success, failure, or raised exception) to each dispatch key; the
source's `try/except/finally` makes the loop's state evolution independent of
that outcome.
-/

namespace DietBot

/-- Calendar date, as Python's `datetime.date`: year, month, day. -/
structure Date where
  year : Nat
  month : Nat
  day : Nat
deriving DecidableEq, Repr

/-- Lexicographic order on dates, as Python compares `date` values. -/
def Date.lt (a b : Date) : Prop :=
  a.year < b.year ∨ (a.year = b.year ∧
    (a.month < b.month ∨ (a.month = b.month ∧ a.day < b.day)))

/-- Non-strict lexicographic order on dates. -/
def Date.le (a b : Date) : Prop :=
  Date.lt a b ∨ (a.year = b.year ∧ a.month = b.month ∧ a.day = b.day)

instance (a b : Date) : Decidable (Date.lt a b) :=
  decidable_of_iff (a.year < b.year ∨ (a.year = b.year ∧
    (a.month < b.month ∨ (a.month = b.month ∧ a.day < b.day)))) Iff.rfl

instance (a b : Date) : Decidable (Date.le a b) :=
  decidable_of_iff (Date.lt a b ∨
    (a.year = b.year ∧ a.month = b.month ∧ a.day = b.day)) Iff.rfl

/-- Zero-pad a numeral to two digits, as `%02d`. -/
def pad2 (n : Nat) : String :=
  if n < 10 then "0" ++ toString n else toString n

/-- Zero-pad a numeral to four digits, as `%04d`. -/
def pad4 (n : Nat) : String :=
  if n < 10 then "000" ++ toString n
  else if n < 100 then "00" ++ toString n
  else if n < 1000 then "0" ++ toString n
  else toString n

/-- Python's `date.isoformat()`: `YYYY-MM-DD`. -/
def Date.isoformat (d : Date) : String :=
  pad4 d.year ++ "-" ++ pad2 d.month ++ "-" ++ pad2 d.day

/-- A timezone-local timestamp, as Python's `datetime`. -/
structure PyDateTime where
  year : Nat
  month : Nat
  day : Nat
  hour : Nat
  minute : Nat
  second : Nat
  microsecond : Nat
deriving DecidableEq, Repr

/-- Line 208: `datetime.now(tz=tz).replace(second=0, microsecond=0)` —
truncation of a timestamp to whole-minute resolution. -/
def truncateToMinute (t : PyDateTime) : PyDateTime :=
  { t with second := 0, microsecond := 0 }

/-- Python's `datetime.date()`: project a timestamp to its calendar date. -/
def PyDateTime.toDate (t : PyDateTime) : Date :=
  ⟨t.year, t.month, t.day⟩

/-- Python's `strftime("%H:%M")`. -/
def fmtHM (t : PyDateTime) : String :=
  pad2 t.hour ++ ":" ++ pad2 t.minute

/-- Python's `strftime("%I:%M %p")` (12-hour clock with AM/PM), used by
`build_whatsapp_message`. -/
def fmtIMp (t : PyDateTime) : String :=
  let h12 := if t.hour % 12 = 0 then 12 else t.hour % 12
  pad2 h12 ++ ":" ++ pad2 t.minute ++ " " ++ (if t.hour < 12 then "AM" else "PM")

/-- One reminder entry of the daily plan (`ReminderItem` dataclass). -/
structure ReminderItem where
  time_24h : String
  title : String
  details : String
deriving DecidableEq, Repr

/-- The fixed daily plan (`DAILY_PLAN`, lines 54-110). -/
def DAILY_PLAN : List ReminderItem := [
  ⟨"08:30", "Morning dry fruits and seeds",
    "It is 8:30 AM. Please take soaked almonds, walnuts, cranberry, seeds, and figs."⟩,
  ⟨"09:30", "Breakfast",
    "It is 9:30 AM. Please have breakfast now."⟩,
  ⟨"10:30", "Coconut water",
    "It is 10:30 AM. Please drink coconut water now."⟩,
  ⟨"11:30", "Folic acid and iron",
    "It is 11:30 AM. Please take folic acid medicine and iron medicine now."⟩,
  ⟨"13:30", "Lunch, salad, and iron",
    "It is 1:30 PM. Please have lunch and salad, and also take iron medicine."⟩,
  ⟨"15:00", "Afternoon fruits",
    "It is 3:00 PM. Please eat orange, anaar, and apple."⟩,
  ⟨"17:00", "Snack and tea",
    "It is 5:00 PM. Please have snack and tea now."⟩,
  ⟨"20:15", "Magnesium before dinner",
    "It is before dinner time. Please take magnesium medicine now."⟩,
  ⟨"20:30", "Dinner with eggs and salad",
    "It is 8:30 PM. Please have dinner, 2 eggs, and salad."⟩,
  ⟨"22:00", "Milk",
    "It is 10:00 PM. Please drink milk now."⟩,
  ⟨"22:30", "Ecosprin before sleep",
    "It is bedtime. Please take ecosprin medicine before sleep."⟩]

/-- The application configuration (`AppConfig` dataclass). -/
structure AppConfig where
  twilio_account_sid : String
  twilio_auth_token : String
  twilio_whatsapp_number : String
  sister_whatsapp_number : String
  timezone : String
  start_date : Date
  calcium_reminder_weekday : Nat
  calcium_reminder_time : String
  poll_interval_seconds : Nat
deriving DecidableEq, Repr

/-- Strip leading and trailing elements satisfying `p`, as Python's
`str.strip()` acts on the character list. -/
def stripList {α : Type} (p : α → Bool) (l : List α) : List α :=
  ((l.dropWhile p).reverse.dropWhile p).reverse

/-- Python's `str.strip()` (whitespace on both ends). -/
def pyStrip (s : String) : String :=
  String.mk (stripList Char.isWhitespace s.data)

/-- Python's `str.startswith(p)`. -/
def pyStartsWith (s pre : String) : Bool :=
  pre.data.isPrefixOf s.data

/-- Lines 133-141, `_normalize_whatsapp_number`: strip the raw value, pass
through values already carrying the `whatsapp:` scheme, prepend `whatsapp:`
to `+`-prefixed E.164 numbers, and raise `ValueError` otherwise. -/
def normalizeWhatsappNumber (raw : String) (envName : String) : Except String String :=
  let value := pyStrip raw
  if pyStartsWith value "whatsapp:" then .ok value
  else if pyStartsWith value "+" then .ok ("whatsapp:" ++ value)
  else .error (envName ++
    " must be in E.164 format like +91XXXXXXXXXX or whatsapp:+91XXXXXXXXXX")

/-- Lines 163-169, `build_whatsapp_message`. -/
def buildWhatsappMessage (item : ReminderItem) (now_local : PyDateTime) : String :=
  "Reminder (" ++ fmtIMp now_local ++ "): " ++ item.title ++ "\n" ++
    item.details ++ "\nPlease take care."

/-- Outcome of one Dispatcher call inside the `try/except` of lines 229-233:
the Twilio send succeeds, reports failure, or raises an exception. -/
inductive Outcome where
  | ok
  | fail
  | exn
deriving DecidableEq, Repr

/-- The Dispatcher boundary: an oracle fixing the outcome of the dispatch
attempt for each key. -/
def Oracle : Type := String → Outcome

/-- One observed dispatch attempt (lines 228-236): the date and plan entry it
was made for, its dedup key, the rendered message, and the outcome. -/
structure Event where
  date : Date
  item : ReminderItem
  key : String
  message : String
  outcome : Outcome
deriving DecidableEq, Repr

/-- Line 224: `key = f"{today.isoformat()}-{item.time_24h}-{item.title}"`. -/
def mkKey (today : Date) (item : ReminderItem) : String :=
  today.isoformat ++ "-" ++ item.time_24h ++ "-" ++ item.title

/-- The dedup ledger, modelling the Python `set[str]` `sent_keys`. -/
abbrev Ledger : Type := List String

/-- Python's `sent_keys.add(key)` (line 236): set insertion. -/
def recordKey (key : String) (s : Ledger) : Ledger :=
  if key ∈ s then s else key :: s

/-- The spec's `is_pending(key)`: true exactly when the key has not been
recorded, i.e. the negation of line 225's `key in sent_keys`. -/
def isPending (key : String) (s : Ledger) : Bool :=
  !(decide (key ∈ s))

/-- Lines 220-236: the `for item in DAILY_PLAN` body — skip entries whose
time does not match, skip already-recorded keys, otherwise attempt the
dispatch and record the key regardless of outcome (`finally`). -/
def scanPlan (o : Oracle) (today : Date) (hm : String) (now : PyDateTime) :
    List ReminderItem → Ledger → Ledger × List Event
  | [], keys => (keys, [])
  | item :: rest, keys =>
    if item.time_24h = hm then
      let key := mkKey today item
      if key ∈ keys then
        scanPlan o today hm now rest keys
      else
        let r := scanPlan o today hm now rest (recordKey key keys)
        (r.1, ⟨today, item, key, buildWhatsappMessage item now, o key⟩ :: r.2)
    else
      scanPlan o today hm now rest keys

/-- The loop's mutable state (lines 201-202): `sent_keys` and
`last_seen_date` (initially `None`). -/
structure SchedState where
  sent_keys : Ledger
  last_seen_date : Option Date
deriving DecidableEq, Repr

/-- The state at loop entry: empty ledger, no last-seen date. -/
def initState : SchedState := ⟨[], none⟩

/-- The minute-truncated `now_local` the iteration works with (line 208). -/
def iterNow (raw : PyDateTime) : PyDateTime := truncateToMinute raw

/-- Line 209: `today = now_local.date()`. -/
def iterToday (raw : PyDateTime) : Date := (iterNow raw).toDate

/-- Line 210: `current_hm = now_local.strftime("%H:%M")`. -/
def iterHM (raw : PyDateTime) : String := fmtHM (iterNow raw)

/-- One iteration of the `while True` loop (lines 207-240), given the raw
clock observation `raw`: the start-date gate (lines 212-214), the
day-boundary reset (lines 216-218) and the plan scan (lines 220-236).
Sleeping is implicit in passing to the next trace element. -/
def step (cfg : AppConfig) (plan : List ReminderItem) (o : Oracle)
    (s : SchedState) (raw : PyDateTime) : SchedState × List Event :=
  let now := iterNow raw
  let today := iterToday raw
  let hm := iterHM raw
  if Date.lt today cfg.start_date then
    (s, [])
  else
    let s1 : SchedState :=
      if s.last_seen_date = some today then s else ⟨[], some today⟩
    let r := scanPlan o today hm now plan s1.sent_keys
    (⟨r.1, s1.last_seen_date⟩, r.2)

/-- The loop run over a finite stream of clock observations, collecting the
dispatch attempts of all iterations in order. -/
def runTrace (cfg : AppConfig) (plan : List ReminderItem) (o : Oracle) :
    SchedState → List PyDateTime → SchedState × List Event
  | s, [] => (s, [])
  | s, t :: ts =>
    let p := step cfg plan o s t
    let q := runTrace cfg plan o p.1 ts
    (q.1, p.2 ++ q.2)

/-- The spec's `due_entries` contract (section 4.2): the plan entries whose
`time_of_day` exactly equals the current `HH:MM`, in plan order. -/
def dueEntries (plan : List ReminderItem) (hm : String) : List ReminderItem :=
  plan.filter (fun i => decide (i.time_24h = hm))

/-- Number of dispatch attempts made for plan entry `E` on date `D`. -/
def attemptsFor (D : Date) (E : ReminderItem) (evs : List Event) : Nat :=
  (evs.filter (fun e => decide (e.date = D ∧ e.item = E))).length

/-- Number of dispatch attempts made for plan entry `E` (any date). -/
def countItem (E : ReminderItem) (evs : List Event) : Nat :=
  (evs.filter (fun e => decide (e.item = E))).length

/-! ### Order lemmas for dates -/

theorem Date.le_refl (a : Date) : Date.le a a :=
  Or.inr ⟨rfl, rfl, rfl⟩

theorem Date.le_trans {a b c : Date} (h1 : Date.le a b) (h2 : Date.le b c) :
    Date.le a c := by
  simp only [Date.le, Date.lt] at *
  omega

theorem Date.not_lt_of_le {a b : Date} (h : Date.le a b) : ¬ Date.lt b a := by
  simp only [Date.le, Date.lt] at *
  omega

/-! ### Counting lemmas -/

theorem countItem_append (E : ReminderItem) (a b : List Event) :
    countItem E (a ++ b) = countItem E a + countItem E b := by
  simp [countItem, List.filter_append]

theorem attemptsFor_append (D : Date) (E : ReminderItem) (a b : List Event) :
    attemptsFor D E (a ++ b) = attemptsFor D E a + attemptsFor D E b := by
  simp [attemptsFor, List.filter_append]

theorem attemptsFor_eq_zero {D : Date} {E : ReminderItem} {evs : List Event}
    (h : ∀ e ∈ evs, e.date ≠ D) : attemptsFor D E evs = 0 := by
  simp only [attemptsFor, List.length_eq_zero, List.filter_eq_nil_iff]
  intro e he
  simp only [decide_eq_true_eq, not_and]
  intro hd
  exact absurd hd (h e he)

theorem attemptsFor_eq_countItem {D : Date} {E : ReminderItem} {evs : List Event}
    (h : ∀ e ∈ evs, e.date = D) : attemptsFor D E evs = countItem E evs := by
  unfold attemptsFor countItem
  congr 1
  apply List.filter_congr
  intro e he
  simp [h e he]

theorem countItem_eq_zero {E : ReminderItem} {evs : List Event}
    (h : ∀ e ∈ evs, e.item ≠ E) : countItem E evs = 0 := by
  simp only [countItem, List.length_eq_zero, List.filter_eq_nil_iff]
  intro e he
  simpa using h e he

/-! ### Scan lemmas -/

theorem scan_keys_mono (o : Oracle) (today : Date) (hm : String) (now : PyDateTime)
    (plan : List ReminderItem) (keys : Ledger) {k : String} (hk : k ∈ keys) :
    k ∈ (scanPlan o today hm now plan keys).1 := by
  induction plan generalizing keys with
  | nil => simpa [scanPlan] using hk
  | cons item rest ih =>
    by_cases h1 : item.time_24h = hm
    · by_cases h2 : mkKey today item ∈ keys
      · simpa [scanPlan, h1, h2] using ih keys hk
      · have hk' : k ∈ recordKey (mkKey today item) keys := by
          simp [recordKey, h2, hk]
        simpa [scanPlan, h1, h2] using ih _ hk'
    · simpa [scanPlan, h1] using ih keys hk

theorem scan_event_shape (o : Oracle) (today : Date) (hm : String) (now : PyDateTime)
    (plan : List ReminderItem) (keys : Ledger) :
    ∀ e ∈ (scanPlan o today hm now plan keys).2,
      e.date = today ∧ e.key = mkKey today e.item ∧ e.item ∈ plan ∧
        e.item.time_24h = hm := by
  induction plan generalizing keys with
  | nil => simp [scanPlan]
  | cons item rest ih =>
    intro e he
    by_cases h1 : item.time_24h = hm
    · by_cases h2 : mkKey today item ∈ keys
      · simp only [scanPlan, h1, if_pos, h2, if_true, ite_true] at he
        have := ih keys e (by simpa using he)
        exact ⟨this.1, this.2.1, List.mem_cons_of_mem _ this.2.2.1, this.2.2.2⟩
      · simp only [scanPlan, h1, if_pos, h2, if_false, ite_true, ite_false,
          List.mem_cons] at he
        rcases he with he | he
        · subst he
          exact ⟨rfl, rfl, List.mem_cons_self _ _, h1⟩
        · have := ih (recordKey (mkKey today item) keys) e he
          exact ⟨this.1, this.2.1, List.mem_cons_of_mem _ this.2.2.1, this.2.2.2⟩
    · simp only [scanPlan, h1, ite_false] at he
      have := ih keys e he
      exact ⟨this.1, this.2.1, List.mem_cons_of_mem _ this.2.2.1, this.2.2.2⟩

theorem scan_blocked_key (o : Oracle) (today : Date) (hm : String) (now : PyDateTime)
    (plan : List ReminderItem) (keys : Ledger) {k : String} (hk : k ∈ keys) :
    ∀ e ∈ (scanPlan o today hm now plan keys).2, e.key ≠ k := by
  induction plan generalizing keys with
  | nil => simp [scanPlan]
  | cons item rest ih =>
    intro e he
    by_cases h1 : item.time_24h = hm
    · by_cases h2 : mkKey today item ∈ keys
      · simp only [scanPlan, h1, if_pos, h2, if_true, ite_true] at he
        exact ih keys hk e (by simpa using he)
      · simp only [scanPlan, h1, if_pos, h2, if_false, ite_true, ite_false,
          List.mem_cons] at he
        rcases he with he | he
        · subst he
          simp only []
          intro hc
          exact h2 (hc ▸ hk)
        · have hk' : k ∈ recordKey (mkKey today item) keys := by
            simp [recordKey, h2, hk]
          exact ih _ hk' e he
    · simp only [scanPlan, h1, ite_false] at he
      exact ih keys hk e he

theorem scan_key_recorded (o : Oracle) (today : Date) (hm : String) (now : PyDateTime)
    (plan : List ReminderItem) (keys : Ledger) :
    ∀ e ∈ (scanPlan o today hm now plan keys).2,
      e.key ∈ (scanPlan o today hm now plan keys).1 := by
  induction plan generalizing keys with
  | nil => simp [scanPlan]
  | cons item rest ih =>
    intro e he
    by_cases h1 : item.time_24h = hm
    · by_cases h2 : mkKey today item ∈ keys
      · simp only [scanPlan, h1, if_pos, h2, if_true, ite_true] at he ⊢
        exact ih keys e (by simpa using he)
      · simp only [scanPlan, h1, if_pos, h2, if_false, ite_true, ite_false,
          List.mem_cons] at he ⊢
        rcases he with he | he
        · subst he
          apply scan_keys_mono
          simp [recordKey, h2]
        · exact ih _ e he
    · simp only [scanPlan, h1, ite_false] at he ⊢
      exact ih keys e he

theorem scan_keys_subset (o : Oracle) (today : Date) (hm : String) (now : PyDateTime)
    (plan : List ReminderItem) (keys : Ledger) {k : String}
    (hk : k ∈ (scanPlan o today hm now plan keys).1) :
    k ∈ keys ∨ ∃ i ∈ plan, k = mkKey today i := by
  induction plan generalizing keys with
  | nil => simp only [scanPlan] at hk; exact Or.inl hk
  | cons item rest ih =>
    by_cases h1 : item.time_24h = hm
    · by_cases h2 : mkKey today item ∈ keys
      · simp only [scanPlan, h1, if_pos, h2, if_true, ite_true] at hk
        rcases ih keys hk with h | ⟨i, hi, rfl⟩
        · exact Or.inl h
        · exact Or.inr ⟨i, List.mem_cons_of_mem _ hi, rfl⟩
      · simp only [scanPlan, h1, if_pos, h2, if_false, ite_true, ite_false] at hk
        rcases ih (recordKey (mkKey today item) keys) hk with h | ⟨i, hi, rfl⟩
        · simp only [recordKey, h2, if_false, ite_false, List.mem_cons] at h
          rcases h with rfl | h
          · exact Or.inr ⟨item, List.mem_cons_self _ _, rfl⟩
          · exact Or.inl h
        · exact Or.inr ⟨i, List.mem_cons_of_mem _ hi, rfl⟩
    · simp only [scanPlan, h1, ite_false] at hk
      rcases ih keys hk with h | ⟨i, hi, rfl⟩
      · exact Or.inl h
      · exact Or.inr ⟨i, List.mem_cons_of_mem _ hi, rfl⟩

theorem countItem_cons (E : ReminderItem) (e : Event) (evs : List Event) :
    countItem E (e :: evs) =
      (if e.item = E then 1 else 0) + countItem E evs := by
  by_cases h : e.item = E <;> simp [countItem, List.filter_cons, h, Nat.add_comm]

theorem scan_countItem_blocked (o : Oracle) (today : Date) (hm : String)
    (now : PyDateTime) (plan : List ReminderItem) (keys : Ledger)
    {E : ReminderItem} (hE : mkKey today E ∈ keys) :
    countItem E (scanPlan o today hm now plan keys).2 = 0 := by
  apply countItem_eq_zero
  intro e he hitem
  have hshape := scan_event_shape o today hm now plan keys e he
  have hblocked := scan_blocked_key o today hm now plan keys hE e he
  exact hblocked (by rw [hshape.2.1, hitem])

theorem scan_countItem_le_one (o : Oracle) (today : Date) (hm : String)
    (now : PyDateTime) (plan : List ReminderItem) (keys : Ledger)
    (E : ReminderItem) :
    countItem E (scanPlan o today hm now plan keys).2 ≤ 1 := by
  induction plan generalizing keys with
  | nil => simp [scanPlan, countItem]
  | cons item rest ih =>
    by_cases h1 : item.time_24h = hm
    · by_cases h2 : mkKey today item ∈ keys
      · simpa [scanPlan, h1, h2] using ih keys
      · simp only [scanPlan, h1, if_pos, h2, if_false, ite_true, ite_false]
        rw [countItem_cons]
        by_cases h3 : item = E
        · subst h3
          have : countItem item
              (scanPlan o today hm now rest (recordKey (mkKey today item) keys)).2 = 0 := by
            apply scan_countItem_blocked
            simp [recordKey, h2]
          simp [this]
        · simpa [h3] using ih (recordKey (mkKey today item) keys)
    · simpa [scanPlan, h1] using ih keys

theorem scan_countItem_pos (o : Oracle) (today : Date) (hm : String)
    (now : PyDateTime) (plan : List ReminderItem) (keys : Ledger)
    {E : ReminderItem}
    (h : 1 ≤ countItem E (scanPlan o today hm now plan keys).2) :
    mkKey today E ∈ (scanPlan o today hm now plan keys).1 := by
  have hne : ∃ e ∈ (scanPlan o today hm now plan keys).2, e.item = E := by
    by_contra hc
    push_neg at hc
    have := countItem_eq_zero hc
    omega
  obtain ⟨e, he, hitem⟩ := hne
  have hshape := scan_event_shape o today hm now plan keys e he
  have hrec := scan_key_recorded o today hm now plan keys e he
  rw [hshape.2.1, hitem] at hrec
  exact hrec

/-- The outcome-independent part of an event: everything except the
Dispatcher's response. -/
def eventCore (e : Event) : Date × ReminderItem × String × String :=
  (e.date, e.item, e.key, e.message)

theorem scan_oracle_indep (o1 o2 : Oracle) (today : Date) (hm : String)
    (now : PyDateTime) (plan : List ReminderItem) (keys : Ledger) :
    (scanPlan o1 today hm now plan keys).1 = (scanPlan o2 today hm now plan keys).1 ∧
      (scanPlan o1 today hm now plan keys).2.map eventCore =
        (scanPlan o2 today hm now plan keys).2.map eventCore := by
  induction plan generalizing keys with
  | nil => simp [scanPlan]
  | cons item rest ih =>
    by_cases h1 : item.time_24h = hm
    · by_cases h2 : mkKey today item ∈ keys
      · simpa [scanPlan, h1, h2] using ih keys
      · have := ih (recordKey (mkKey today item) keys)
        simp only [scanPlan, h1, if_pos, h2, if_false, ite_true, ite_false,
          List.map_cons]
        refine ⟨this.1, ?_⟩
        rw [this.2]
        simp [eventCore]
    · simpa [scanPlan, h1] using ih keys

theorem scan_map_filter (o : Oracle) (today : Date) (hm : String)
    (now : PyDateTime) (plan : List ReminderItem) (keys : Ledger)
    (hkeys : ∀ i ∈ plan, i.time_24h = hm → mkKey today i ∉ keys)
    (hpw : plan.Pairwise
      (fun i j => i.time_24h = hm → j.time_24h = hm → mkKey today i ≠ mkKey today j)) :
    (scanPlan o today hm now plan keys).2.map (fun e => e.item) =
      dueEntries plan hm := by
  induction plan generalizing keys with
  | nil => simp [scanPlan, dueEntries]
  | cons item rest ih =>
    rcases List.pairwise_cons.mp hpw with ⟨hhead, htail⟩
    by_cases h1 : item.time_24h = hm
    · have h2 : mkKey today item ∉ keys := hkeys item (List.mem_cons_self _ _) h1
      simp only [scanPlan, h1, if_pos, h2, if_false, ite_true, ite_false,
        List.map_cons, dueEntries, List.filter_cons, decide_eq_true_eq]
      congr 1
      apply ih
      · intro i hi hit
        simp only [recordKey, h2, ite_false, List.mem_cons]
        push_neg
        refine ⟨?_, hkeys i (List.mem_cons_of_mem _ hi) hit⟩
        intro hc
        exact hhead i hi h1 hit hc.symm
      · exact htail
    · simp only [scanPlan, h1, ite_false, dueEntries, List.filter_cons,
        decide_eq_true_eq, if_false]
      apply ih
      · intro i hi hit
        exact hkeys i (List.mem_cons_of_mem _ hi) hit
      · exact htail

theorem scan_append (o : Oracle) (today : Date) (hm : String) (now : PyDateTime)
    (xs ys : List ReminderItem) (keys : Ledger) :
    scanPlan o today hm now (xs ++ ys) keys =
      ((scanPlan o today hm now ys (scanPlan o today hm now xs keys).1).1,
        (scanPlan o today hm now xs keys).2 ++
          (scanPlan o today hm now ys (scanPlan o today hm now xs keys).1).2) := by
  induction xs generalizing keys with
  | nil => simp [scanPlan]
  | cons item rest ih =>
    by_cases h1 : item.time_24h = hm
    · by_cases h2 : mkKey today item ∈ keys
      · simpa [scanPlan, h1, h2] using ih keys
      · simp [scanPlan, h1, h2, ih (recordKey (mkKey today item) keys)]
    · simpa [scanPlan, h1] using ih keys

/-! ### Step lemmas -/

theorem step_waiting (cfg : AppConfig) (plan : List ReminderItem) (o : Oracle)
    (s : SchedState) (raw : PyDateTime)
    (h : Date.lt (iterToday raw) cfg.start_date) :
    step cfg plan o s raw = (s, []) := by
  simp [step, h]

theorem step_active_stale (cfg : AppConfig) (plan : List ReminderItem) (o : Oracle)
    (s : SchedState) (raw : PyDateTime)
    (h : ¬ Date.lt (iterToday raw) cfg.start_date)
    (hsame : s.last_seen_date = some (iterToday raw)) :
    step cfg plan o s raw =
      (⟨(scanPlan o (iterToday raw) (iterHM raw) (iterNow raw) plan s.sent_keys).1,
          s.last_seen_date⟩,
        (scanPlan o (iterToday raw) (iterHM raw) (iterNow raw) plan s.sent_keys).2) := by
  simp [step, h, hsame]

theorem step_active_fresh (cfg : AppConfig) (plan : List ReminderItem) (o : Oracle)
    (s : SchedState) (raw : PyDateTime)
    (h : ¬ Date.lt (iterToday raw) cfg.start_date)
    (hdiff : s.last_seen_date ≠ some (iterToday raw)) :
    step cfg plan o s raw =
      (⟨(scanPlan o (iterToday raw) (iterHM raw) (iterNow raw) plan []).1,
          some (iterToday raw)⟩,
        (scanPlan o (iterToday raw) (iterHM raw) (iterNow raw) plan []).2) := by
  simp [step, h, hdiff]

theorem step_event_date (cfg : AppConfig) (plan : List ReminderItem) (o : Oracle)
    (s : SchedState) (raw : PyDateTime) :
    ∀ e ∈ (step cfg plan o s raw).2, e.date = iterToday raw := by
  intro e he
  by_cases h : Date.lt (iterToday raw) cfg.start_date
  · rw [step_waiting cfg plan o s raw h] at he
    simp at he
  · by_cases hsame : s.last_seen_date = some (iterToday raw)
    · rw [step_active_stale cfg plan o s raw h hsame] at he
      exact (scan_event_shape _ _ _ _ _ _ e he).1
    · rw [step_active_fresh cfg plan o s raw h hsame] at he
      exact (scan_event_shape _ _ _ _ _ _ e he).1

theorem step_last_seen (cfg : AppConfig) (plan : List ReminderItem) (o : Oracle)
    (s : SchedState) (raw : PyDateTime)
    (h : ¬ Date.lt (iterToday raw) cfg.start_date) :
    (step cfg plan o s raw).1.last_seen_date = some (iterToday raw) := by
  by_cases hsame : s.last_seen_date = some (iterToday raw)
  · rw [step_active_stale cfg plan o s raw h hsame]
    exact hsame
  · rw [step_active_fresh cfg plan o s raw h hsame]

theorem step_key_recorded (cfg : AppConfig) (plan : List ReminderItem) (o : Oracle)
    (s : SchedState) (raw : PyDateTime) :
    ∀ e ∈ (step cfg plan o s raw).2, e.key ∈ (step cfg plan o s raw).1.sent_keys := by
  intro e he
  by_cases h : Date.lt (iterToday raw) cfg.start_date
  · rw [step_waiting cfg plan o s raw h] at he
    simp at he
  · by_cases hsame : s.last_seen_date = some (iterToday raw)
    · rw [step_active_stale cfg plan o s raw h hsame] at he ⊢
      exact scan_key_recorded _ _ _ _ _ _ e he
    · rw [step_active_fresh cfg plan o s raw h hsame] at he ⊢
      exact scan_key_recorded _ _ _ _ _ _ e he

/-! ### Trace lemmas -/

theorem runTrace_cons (cfg : AppConfig) (plan : List ReminderItem) (o : Oracle)
    (s : SchedState) (t : PyDateTime) (ts : List PyDateTime) :
    runTrace cfg plan o s (t :: ts) =
      ((runTrace cfg plan o (step cfg plan o s t).1 ts).1,
        (step cfg plan o s t).2 ++
          (runTrace cfg plan o (step cfg plan o s t).1 ts).2) := rfl

theorem runTrace_append (cfg : AppConfig) (plan : List ReminderItem) (o : Oracle)
    (s : SchedState) (xs ys : List PyDateTime) :
    runTrace cfg plan o s (xs ++ ys) =
      ((runTrace cfg plan o (runTrace cfg plan o s xs).1 ys).1,
        (runTrace cfg plan o s xs).2 ++
          (runTrace cfg plan o (runTrace cfg plan o s xs).1 ys).2) := by
  induction xs generalizing s with
  | nil => simp [runTrace]
  | cons t ts ih =>
    simp only [List.cons_append, runTrace_cons, ih]
    simp [List.append_assoc]

theorem run_event_date (cfg : AppConfig) (plan : List ReminderItem) (o : Oracle)
    (s : SchedState) (ts : List PyDateTime) :
    ∀ e ∈ (runTrace cfg plan o s ts).2, ∃ t ∈ ts, e.date = iterToday t := by
  induction ts generalizing s with
  | nil => simp [runTrace]
  | cons t ts ih =>
    intro e he
    rw [runTrace_cons] at he
    simp only [List.mem_append] at he
    rcases he with he | he
    · exact ⟨t, List.mem_cons_self _ _, step_event_date cfg plan o s t e he⟩
    · obtain ⟨u, hu, hd⟩ := ih _ e he
      exact ⟨u, List.mem_cons_of_mem _ hu, hd⟩

theorem run_attempts_zero (cfg : AppConfig) (plan : List ReminderItem) (o : Oracle)
    (s : SchedState) (ts : List PyDateTime) {D : Date} {E : ReminderItem}
    (h : ∀ t ∈ ts, iterToday t ≠ D) :
    attemptsFor D E (runTrace cfg plan o s ts).2 = 0 := by
  apply attemptsFor_eq_zero
  intro e he
  obtain ⟨t, ht, hd⟩ := run_event_date cfg plan o s ts e he
  rw [hd]
  exact h t ht

theorem run_waiting (cfg : AppConfig) (plan : List ReminderItem) (o : Oracle)
    (ts : List PyDateTime)
    (hw : ∀ t ∈ ts, Date.lt (iterToday t) cfg.start_date) :
    ∀ s, runTrace cfg plan o s ts = (s, []) := by
  induction ts with
  | nil => intro s; rfl
  | cons t ts ih =>
    intro s
    rw [runTrace_cons, step_waiting cfg plan o s t (hw t (List.mem_cons_self _ _))]
    simp [ih (fun u hu => hw u (List.mem_cons_of_mem _ hu)) s]

theorem step_attempts (cfg : AppConfig) (plan : List ReminderItem) (o : Oracle)
    (s : SchedState) (t : PyDateTime) (E : ReminderItem)
    (h : ¬ Date.lt (iterToday t) cfg.start_date) :
    attemptsFor (iterToday t) E (step cfg plan o s t).2 ≤ 1 ∧
      (1 ≤ attemptsFor (iterToday t) E (step cfg plan o s t).2 →
        mkKey (iterToday t) E ∈ (step cfg plan o s t).1.sent_keys) := by
  have hc : attemptsFor (iterToday t) E (step cfg plan o s t).2 =
      countItem E (step cfg plan o s t).2 :=
    attemptsFor_eq_countItem (step_event_date cfg plan o s t)
  rw [hc]
  by_cases hsame : s.last_seen_date = some (iterToday t)
  · rw [step_active_stale cfg plan o s t h hsame]
    exact ⟨scan_countItem_le_one _ _ _ _ _ _ _, fun hp => scan_countItem_pos _ _ _ _ _ _ hp⟩
  · rw [step_active_fresh cfg plan o s t h hsame]
    exact ⟨scan_countItem_le_one _ _ _ _ _ _ _, fun hp => scan_countItem_pos _ _ _ _ _ _ hp⟩

theorem run_blocked (cfg : AppConfig) (plan : List ReminderItem) (o : Oracle)
    {D : Date} {E : ReminderItem} (hge : ¬ Date.lt D cfg.start_date)
    (ts : List PyDateTime) (hall : ∀ t ∈ ts, iterToday t = D) :
    ∀ s, s.last_seen_date = some D → mkKey D E ∈ s.sent_keys →
      attemptsFor D E (runTrace cfg plan o s ts).2 = 0 := by
  induction ts with
  | nil => intro s _ _; simp [runTrace, attemptsFor]
  | cons t ts ih =>
    intro s hlast hkey
    have htd : iterToday t = D := hall t (List.mem_cons_self _ _)
    have hlt : ¬ Date.lt (iterToday t) cfg.start_date := by rw [htd]; exact hge
    have hsame : s.last_seen_date = some (iterToday t) := by rw [htd]; exact hlast
    have hstep := step_active_stale cfg plan o s t hlt hsame
    rw [runTrace_cons, attemptsFor_append]
    have hzero : attemptsFor D E (step cfg plan o s t).2 = 0 := by
      rw [attemptsFor_eq_countItem (fun e he => by
        rw [step_event_date cfg plan o s t e he, htd])]
      rw [hstep]
      exact scan_countItem_blocked _ _ _ _ _ _ (by rw [← htd] at hkey; exact hkey)
    rw [hzero]
    have hnext :=
      ih (fun u hu => hall u (List.mem_cons_of_mem _ hu)) (step cfg plan o s t).1
        (by rw [hstep]; exact hlast)
        (by rw [hstep]; exact scan_keys_mono _ _ _ _ _ _ hkey)
    rw [hnext]

theorem run_block_le_one (cfg : AppConfig) (plan : List ReminderItem) (o : Oracle)
    {D : Date} {E : ReminderItem}
    (ts : List PyDateTime) (hall : ∀ t ∈ ts, iterToday t = D) :
    ∀ s, attemptsFor D E (runTrace cfg plan o s ts).2 ≤ 1 := by
  by_cases hge : Date.lt D cfg.start_date
  · intro s
    rw [run_waiting cfg plan o ts
      (fun u hu => by rw [hall u hu]; exact hge) s]
    simp [attemptsFor]
  · induction ts with
    | nil => intro s; simp [runTrace, attemptsFor]
    | cons t ts ih =>
      intro s
      have htd : iterToday t = D := hall t (List.mem_cons_self _ _)
      have hlt : ¬ Date.lt (iterToday t) cfg.start_date := by rw [htd]; exact hge
      rw [runTrace_cons, attemptsFor_append]
      have hstep := step_attempts cfg plan o s t E hlt
      rw [htd] at hstep
      rcases Nat.lt_or_ge (attemptsFor D E (step cfg plan o s t).2) 1 with h0 | h1
      · have : attemptsFor D E (step cfg plan o s t).2 = 0 := by omega
        rw [this]
        simpa using ih (fun u hu => hall u (List.mem_cons_of_mem _ hu))
          (step cfg plan o s t).1
      · have hkey := hstep.2 h1
        have hlast : (step cfg plan o s t).1.last_seen_date = some D := by
          rw [← htd]
          exact step_last_seen cfg plan o s t hlt
        have hrest := run_blocked cfg plan o hge ts
          (fun u hu => hall u (List.mem_cons_of_mem _ hu))
          (step cfg plan o s t).1 hlast hkey
        rw [hrest]
        omega

theorem step_oracle_indep (cfg : AppConfig) (plan : List ReminderItem)
    (o1 o2 : Oracle) (s : SchedState) (t : PyDateTime) :
    (step cfg plan o1 s t).1 = (step cfg plan o2 s t).1 ∧
      (step cfg plan o1 s t).2.map eventCore = (step cfg plan o2 s t).2.map eventCore := by
  by_cases h : Date.lt (iterToday t) cfg.start_date
  · rw [step_waiting cfg plan o1 s t h, step_waiting cfg plan o2 s t h]
    exact ⟨rfl, rfl⟩
  · have hs := scan_oracle_indep o1 o2 (iterToday t) (iterHM t) (iterNow t) plan
    by_cases hsame : s.last_seen_date = some (iterToday t)
    · rw [step_active_stale cfg plan o1 s t h hsame,
        step_active_stale cfg plan o2 s t h hsame]
      exact ⟨by rw [(hs s.sent_keys).1], (hs s.sent_keys).2⟩
    · rw [step_active_fresh cfg plan o1 s t h hsame,
        step_active_fresh cfg plan o2 s t h hsame]
      exact ⟨by rw [(hs []).1], (hs []).2⟩

theorem run_oracle_indep (cfg : AppConfig) (plan : List ReminderItem)
    (o1 o2 : Oracle) (ts : List PyDateTime) :
    ∀ s, (runTrace cfg plan o1 s ts).1 = (runTrace cfg plan o2 s ts).1 ∧
      (runTrace cfg plan o1 s ts).2.map eventCore =
        (runTrace cfg plan o2 s ts).2.map eventCore := by
  induction ts with
  | nil => intro s; exact ⟨rfl, rfl⟩
  | cons t ts ih =>
    intro s
    rw [runTrace_cons, runTrace_cons]
    have hstep := step_oracle_indep cfg plan o1 o2 s t
    rw [hstep.1]
    refine ⟨(ih (step cfg plan o2 s t).1).1, ?_⟩
    simp only [List.map_append]
    rw [hstep.2, (ih (step cfg plan o2 s t).1).2]

/-! ### Facts about the concrete daily plan -/

theorem daily_plan_times_distinct :
    DAILY_PLAN.Pairwise (fun i j => i.time_24h ≠ j.time_24h) := by decide

theorem daily_plan_nodup : DAILY_PLAN.Nodup :=
  daily_plan_times_distinct.imp
    (fun h he => h (congrArg ReminderItem.time_24h he))

/-! ### Lemmas about stripping (Python `str.strip`) -/

theorem dropWhile_head_false {α : Type} (p : α → Bool) (l : List α) :
    ∀ a ∈ (l.dropWhile p).head?, p a = false := by
  induction l with
  | nil => simp
  | cons x xs ih =>
    by_cases h : p x
    · simpa [List.dropWhile_cons, h] using ih
    · simp [List.dropWhile_cons, h]

theorem dropWhile_eq_self_of_head {α : Type} (p : α → Bool) (l : List α)
    (h : ∀ a ∈ l.head?, p a = false) : l.dropWhile p = l := by
  cases l with
  | nil => rfl
  | cons x xs =>
    have hx := h x (by simp)
    simp [List.dropWhile_cons, hx]

theorem head?_of_isPrefix {α : Type} {l₁ l₂ : List α} (h : l₁ <+: l₂)
    (hne : l₁ ≠ []) : l₂.head? = l₁.head? := by
  obtain ⟨t, rfl⟩ := h
  cases l₁ with
  | nil => exact absurd rfl hne
  | cons x xs => rfl

theorem stripList_isPrefix {α : Type} (p : α → Bool) (l : List α) :
    stripList p l <+: l.dropWhile p := by
  unfold stripList
  have h := List.dropWhile_suffix (l := (l.dropWhile p).reverse) p
  have h2 := List.reverse_prefix.mpr h
  rwa [List.reverse_reverse] at h2

theorem stripList_head {α : Type} (p : α → Bool) (l : List α) :
    ∀ a ∈ (stripList p l).head?, p a = false := by
  intro a ha
  have hne : stripList p l ≠ [] := by
    intro h
    rw [h] at ha
    simp at ha
  have heq := head?_of_isPrefix (stripList_isPrefix p l) hne
  exact dropWhile_head_false p l a (by rw [heq]; exact ha)

theorem stripList_getLast {α : Type} (p : α → Bool) (l : List α) :
    ∀ a ∈ (stripList p l).getLast?, p a = false := by
  intro a ha
  unfold stripList at ha
  rw [List.getLast?_reverse] at ha
  exact dropWhile_head_false p (l.dropWhile p).reverse a ha

theorem stripList_eq_self {α : Type} (p : α → Bool) (l : List α)
    (h1 : ∀ a ∈ l.head?, p a = false)
    (h2 : ∀ a ∈ l.getLast?, p a = false) : stripList p l = l := by
  unfold stripList
  rw [dropWhile_eq_self_of_head p l h1,
    dropWhile_eq_self_of_head p l.reverse
      (by rw [List.head?_reverse]; exact h2)]
  exact List.reverse_reverse l

theorem stripList_idem {α : Type} (p : α → Bool) (l : List α) :
    stripList p (stripList p l) = stripList p l :=
  stripList_eq_self p _ (stripList_head p l) (stripList_getLast p l)

theorem pyStrip_data (s : String) :
    (pyStrip s).data = stripList Char.isWhitespace s.data := rfl

theorem pyStrip_idem (s : String) : pyStrip (pyStrip s) = pyStrip s := by
  unfold pyStrip
  simp only [String.data]
  rw [stripList_idem]

/-! ### Derived helpers and concrete inputs -/

theorem countItem_eq_count_map (E : ReminderItem) (evs : List Event) :
    countItem E evs = List.count E (evs.map (fun e => e.item)) := by
  induction evs with
  | nil => rfl
  | cons e evs ih =>
    rw [countItem_cons, List.map_cons, List.count_cons, ih]
    by_cases h : e.item = E
    · simp [h, Nat.add_comm]
    · simp [h, beq_eq_false_iff_ne.mpr h]

theorem daily_plan_key_pairwise (d : Date) (hm : String) :
    DAILY_PLAN.Pairwise
      (fun i j => i.time_24h = hm → j.time_24h = hm → mkKey d i ≠ mkKey d j) :=
  daily_plan_times_distinct.imp (fun hne hi hj => absurd (hi.trans hj.symm) hne)

theorem step_fresh_map_items (cfg : AppConfig) (o : Oracle) (s : SchedState)
    (t : PyDateTime)
    (h1 : ¬ Date.lt (iterToday t) cfg.start_date)
    (h2 : s.last_seen_date ≠ some (iterToday t)) :
    (step cfg DAILY_PLAN o s t).2.map (fun e => e.item) =
      dueEntries DAILY_PLAN (iterHM t) := by
  rw [step_active_fresh cfg DAILY_PLAN o s t h1 h2]
  exact scan_map_filter o (iterToday t) (iterHM t) (iterNow t) DAILY_PLAN []
    (by simp) (daily_plan_key_pairwise (iterToday t) (iterHM t))

/-- A configuration with the source's default start date `2026-02-21`. -/
def cfgDefault : AppConfig :=
  ⟨"ACxxxxxxxx", "token", "whatsapp:+10000000000", "whatsapp:+19999999999",
    "Asia/Kolkata", ⟨2026, 2, 21⟩, 5, "09:00", 20⟩

/-- A configuration whose start date is `2026-03-05` (Scenario D). -/
def cfgMar5 : AppConfig :=
  ⟨"ACxxxxxxxx", "token", "whatsapp:+10000000000", "whatsapp:+19999999999",
    "Asia/Kolkata", ⟨2026, 3, 5⟩, 5, "09:00", 20⟩

/-- The `08:30` entry of the daily plan. -/
def entry0830 : ReminderItem :=
  ⟨"08:30", "Morning dry fruits and seeds",
    "It is 8:30 AM. Please take soaked almonds, walnuts, cranberry, seeds, and figs."⟩

/-- Dispatcher oracle: every send succeeds. -/
def oracleOk : Oracle := fun _ => Outcome.ok

/-- Dispatcher oracle: every send fails. -/
def oracleFail : Oracle := fun _ => Outcome.fail

/-- Dispatcher oracle: every send raises an exception. -/
def oracleExn : Oracle := fun _ => Outcome.exn

/-- Clock observation `2026-03-01 08:30` (with nonzero seconds). -/
def mar1_0830 : PyDateTime := ⟨2026, 3, 1, 8, 30, 17, 250⟩

/-- Clock observation `2026-03-01 08:31`. -/
def mar1_0831 : PyDateTime := ⟨2026, 3, 1, 8, 31, 0, 0⟩

/-- Clock observation `2026-03-02 08:30`. -/
def mar2_0830 : PyDateTime := ⟨2026, 3, 2, 8, 30, 0, 0⟩

/-- Clock observation `2026-03-04 08:30`. -/
def mar4_0830 : PyDateTime := ⟨2026, 3, 4, 8, 30, 0, 0⟩

/-- Clock observation `2026-03-05 08:30`. -/
def mar5_0830 : PyDateTime := ⟨2026, 3, 5, 8, 30, 0, 0⟩

/-! ### Claim C7 -/

/-- C7: recording a key in the dedup ledger is idempotent — recording the same
key twice leaves the ledger as after recording it once — and once a key is
recorded, `is_pending` reports it as already attempted, which further records
of any key preserve. -/
theorem c7_record_idempotent :
    (∀ (k : String) (s : Ledger), recordKey k (recordKey k s) = recordKey k s) ∧
    (∀ (k : String) (s : Ledger), isPending k (recordKey k s) = false) ∧
    (∀ (k k2 : String) (s : Ledger),
      isPending k s = false → isPending k (recordKey k2 s) = false) := by
  refine ⟨fun k s => ?_, fun k s => ?_, fun k k2 s h => ?_⟩
  · by_cases h : k ∈ s <;> simp [recordKey, h]
  · by_cases h : k ∈ s <;> simp [recordKey, isPending, h]
  · simp only [isPending, Bool.not_eq_false', decide_eq_true_eq] at h ⊢
    by_cases h2 : k2 ∈ s <;> simp [recordKey, h2, h]

/-- Witness for C7 at concrete inputs. -/
theorem c7_witness :
    recordKey "k" (recordKey "k" []) = recordKey "k" [] ∧
      isPending "k" (recordKey "k" []) = false ∧
      isPending "k" ["k"] = false ∧
      isPending "k" (recordKey "k2" ["k"]) = false :=
  ⟨c7_record_idempotent.1 "k" [], c7_record_idempotent.2.1 "k" [],
    by decide, c7_record_idempotent.2.2 "k" "k2" ["k"] (by decide)⟩

/-! ### Claim C8 -/

/-- C8: each iteration works with the clock value truncated to whole-minute
resolution — its seconds and microseconds are zero, its other fields are the
raw clock's — and the iteration's date and `HH:MM` string are derived from
this truncated value; feeding the loop the truncated value gives the same
iteration result. -/
theorem c8_minute_truncation (cfg : AppConfig) (o : Oracle) (s : SchedState)
    (t : PyDateTime) :
    (iterNow t).second = 0 ∧ (iterNow t).microsecond = 0 ∧
      (iterNow t).year = t.year ∧ (iterNow t).month = t.month ∧
      (iterNow t).day = t.day ∧ (iterNow t).hour = t.hour ∧
      (iterNow t).minute = t.minute ∧
      iterToday t = (iterNow t).toDate ∧ iterHM t = fmtHM (iterNow t) ∧
      step cfg DAILY_PLAN o s (iterNow t) = step cfg DAILY_PLAN o s t :=
  ⟨rfl, rfl, rfl, rfl, rfl, rfl, rfl, rfl, rfl, rfl⟩

/-! ### Claim C10 -/

/-- C10: WhatsApp number normalization fails exactly when the stripped input
starts with neither `whatsapp:` nor `+`; otherwise it returns a string
starting with `whatsapp:`, and it is idempotent on its own output. -/
theorem c10_normalize_whatsapp (raw envName : String) :
    ((∃ msg, normalizeWhatsappNumber raw envName = .error msg) ↔
      (pyStartsWith (pyStrip raw) "whatsapp:" = false ∧
        pyStartsWith (pyStrip raw) "+" = false)) ∧
    (∀ v, normalizeWhatsappNumber raw envName = .ok v →
      pyStartsWith v "whatsapp:" = true ∧
      normalizeWhatsappNumber v envName = .ok v) := by
  constructor
  · cases hb1 : pyStartsWith (pyStrip raw) "whatsapp:"
    · cases hb2 : pyStartsWith (pyStrip raw) "+"
      · simp [normalizeWhatsappNumber, hb1, hb2]
      · simp [normalizeWhatsappNumber, hb1, hb2]
    · simp [normalizeWhatsappNumber, hb1]
  · intro v hv
    by_cases hb1 : pyStartsWith (pyStrip raw) "whatsapp:" = true
    · have hv' : v = pyStrip raw := by
        simp [normalizeWhatsappNumber, hb1] at hv
        exact hv.symm
      subst hv'
      refine ⟨hb1, ?_⟩
      have hs : pyStrip (pyStrip raw) = pyStrip raw := pyStrip_idem raw
      simp [normalizeWhatsappNumber, hs, hb1]
    · by_cases hb2 : pyStartsWith (pyStrip raw) "+" = true
      · have hv' : v = "whatsapp:" ++ pyStrip raw := by
          simp [normalizeWhatsappNumber, hb1, hb2] at hv
          exact hv.symm
        subst hv'
        have hdata : ("whatsapp:" ++ pyStrip raw).data =
            "whatsapp:".data ++ (pyStrip raw).data := String.data_append _ _
        have hpre : pyStartsWith ("whatsapp:" ++ pyStrip raw) "whatsapp:" = true := by
          unfold pyStartsWith
          rw [List.isPrefixOf_iff_prefix, hdata]
          exact List.prefix_append _ _
        refine ⟨hpre, ?_⟩
        have hwne : (pyStrip raw).data ≠ [] := by
          intro h
          unfold pyStartsWith at hb2
          rw [h] at hb2
          exact absurd hb2 (by decide)
        have hfixdata : stripList Char.isWhitespace ("whatsapp:" ++ pyStrip raw).data =
            ("whatsapp:" ++ pyStrip raw).data := by
          apply stripList_eq_self
          · intro a ha
            rw [hdata] at ha
            have hw : "whatsapp:".data = 'w' :: "hatsapp:".data := by decide
            rw [hw] at ha
            simp only [List.cons_append, List.head?_cons, Option.mem_def,
              Option.some.injEq] at ha
            subst ha
            decide
          · intro a ha
            rw [hdata, List.getLast?_append_of_ne_nil _ hwne] at ha
            rw [pyStrip_data] at ha
            exact stripList_getLast Char.isWhitespace raw.data a ha
        have hfix : pyStrip ("whatsapp:" ++ pyStrip raw) = "whatsapp:" ++ pyStrip raw := by
          have hmk : pyStrip ("whatsapp:" ++ pyStrip raw) =
              String.mk (stripList Char.isWhitespace
                ("whatsapp:" ++ pyStrip raw).data) := rfl
          rw [hmk, hfixdata]
        simp [normalizeWhatsappNumber, hfix, hpre]
      · simp [normalizeWhatsappNumber, hb1, hb2] at hv

/-- Witness for C10 at concrete inputs: a padded `+`-number normalizes to a
`whatsapp:`-prefixed value on which normalization is a fixed point. -/
theorem c10_witness :
    normalizeWhatsappNumber " +911234567890 " "SISTER_WHATSAPP_NUMBER" =
        .ok "whatsapp:+911234567890" ∧
      pyStartsWith "whatsapp:+911234567890" "whatsapp:" = true ∧
      normalizeWhatsappNumber "whatsapp:+911234567890" "SISTER_WHATSAPP_NUMBER" =
        .ok "whatsapp:+911234567890" := by
  have h := (c10_normalize_whatsapp " +911234567890 " "SISTER_WHATSAPP_NUMBER").2
    "whatsapp:+911234567890" (by rfl)
  exact ⟨by rfl, h.1, h.2⟩

theorem mem_recordKey_self (k : String) (s : Ledger) : k ∈ recordKey k s := by
  by_cases h : k ∈ s <;> simp [recordKey, h]

/-! ### Claim C1 -/

/-- C1 counterexample: with clock observations `2026-03-01 08:30`,
`2026-03-02 08:30`, `2026-03-01 08:30` (the observed date leaves `2026-03-01`
and returns to it), the loop makes two dispatch attempts for the `08:30`
entry on `2026-03-01`, because the day-boundary reset clears the ledger. -/
theorem c1_counterexample :
    attemptsFor ⟨2026, 3, 1⟩ entry0830
        (runTrace cfgDefault DAILY_PLAN oracleOk initState
          [mar1_0830, mar2_0830, mar1_0830]).2 = 2 ∧
      ¬ attemptsFor ⟨2026, 3, 1⟩ entry0830
          (runTrace cfgDefault DAILY_PLAN oracleOk initState
            [mar1_0830, mar2_0830, mar1_0830]).2 ≤ 1 :=
  ⟨by decide, by decide⟩

/-- C1 (amended): provided the poll iterations observing date `D` are not
interleaved with iterations observing other dates — the trace splits as a
block of non-`D` observations, then `D` observations, then non-`D`
observations — the loop makes at most one dispatch attempt for `(D, E)`; in
particular a second poll in the same matching minute on the same date
dispatches zero additional times. -/
theorem c1_at_most_one_dispatch (cfg : AppConfig) (o : Oracle) (D : Date)
    (E : ReminderItem) (A B C : List PyDateTime)
    (hA : ∀ t ∈ A, iterToday t ≠ D) (hB : ∀ t ∈ B, iterToday t = D)
    (hC : ∀ t ∈ C, iterToday t ≠ D) :
    attemptsFor D E (runTrace cfg DAILY_PLAN o initState (A ++ B ++ C)).2 ≤ 1 := by
  rw [runTrace_append, attemptsFor_append, runTrace_append, attemptsFor_append]
  have h1 : attemptsFor D E (runTrace cfg DAILY_PLAN o initState A).2 = 0 :=
    run_attempts_zero cfg DAILY_PLAN o initState A hA
  have h2 : attemptsFor D E
      (runTrace cfg DAILY_PLAN o (runTrace cfg DAILY_PLAN o initState A).1 B).2 ≤ 1 :=
    run_block_le_one cfg DAILY_PLAN o B hB _
  have h3 : ∀ u, attemptsFor D E (runTrace cfg DAILY_PLAN o u C).2 = 0 :=
    fun u => run_attempts_zero cfg DAILY_PLAN o u C hC
  simp only [h1, h3]
  omega

/-- Witness for C1 at Scenario A: two polls at `08:30` on `2026-03-01`
followed by one on `2026-03-02` yield at most one attempt for the `08:30`
entry on `2026-03-01`. -/
theorem c1_witness :
    (∀ t ∈ ([] : List PyDateTime), iterToday t ≠ ⟨2026, 3, 1⟩) ∧
      (∀ t ∈ [mar1_0830, mar1_0830], iterToday t = ⟨2026, 3, 1⟩) ∧
      (∀ t ∈ [mar2_0830], iterToday t ≠ ⟨2026, 3, 1⟩) ∧
      attemptsFor ⟨2026, 3, 1⟩ entry0830
        (runTrace cfgDefault DAILY_PLAN oracleOk initState
          ([] ++ [mar1_0830, mar1_0830] ++ [mar2_0830])).2 ≤ 1 :=
  ⟨by decide, by decide, by decide,
    c1_at_most_one_dispatch cfgDefault oracleOk ⟨2026, 3, 1⟩ entry0830
      [] [mar1_0830, mar1_0830] [mar2_0830] (by decide) (by decide) (by decide)⟩

/-! ### Claim C2 -/

/-- C2 counterexample: with a Dispatcher that always fails, the failed
`08:30` attempt of `2026-03-01` is attempted again by a later poll observing
`2026-03-01` after an intervening `2026-03-02` poll — so a failed attempt
for `(D, E)` is not "never re-attempted later on date D" without a
no-intervening-date condition. -/
theorem c2_counterexample :
    attemptsFor ⟨2026, 3, 1⟩ entry0830
        (runTrace cfgDefault DAILY_PLAN oracleFail initState
          [mar1_0830, mar2_0830, mar1_0830]).2 = 2 ∧
      ∀ e ∈ (runTrace cfgDefault DAILY_PLAN oracleFail initState
          [mar1_0830, mar2_0830, mar1_0830]).2, e.outcome = Outcome.fail :=
  ⟨by decide, by decide⟩

/-- C2 (amended): every dispatch attempt records its key in the ledger
unconditionally; the loop state and the attempted (date, entry, key,
message) sequence are independent of all Dispatcher outcomes — success,
failure or exception — so an exception never terminates the loop; and while
every poll keeps observing date `D`, an attempted (hence also a failed)
entry is never re-attempted. An intervening different date resets the
ledger and makes it eligible again. -/
theorem c2_unconditional_record (cfg : AppConfig) (o o2 : Oracle)
    (s : SchedState) (t : PyDateTime) :
    (∀ e ∈ (step cfg DAILY_PLAN o s t).2,
        e.key ∈ (step cfg DAILY_PLAN o s t).1.sent_keys) ∧
      (∀ ts : List PyDateTime,
        (runTrace cfg DAILY_PLAN o initState ts).1 =
            (runTrace cfg DAILY_PLAN o2 initState ts).1 ∧
          (runTrace cfg DAILY_PLAN o initState ts).2.map eventCore =
            (runTrace cfg DAILY_PLAN o2 initState ts).2.map eventCore) ∧
      (∀ (D : Date) (E : ReminderItem) (ts : List PyDateTime),
        (∀ u ∈ ts, iterToday u = D) →
          attemptsFor D E (runTrace cfg DAILY_PLAN o s ts).2 ≤ 1) :=
  ⟨step_key_recorded cfg DAILY_PLAN o s t,
    fun ts => run_oracle_indep cfg DAILY_PLAN o o2 ts initState,
    fun _ _ ts h => run_block_le_one cfg DAILY_PLAN o ts h s⟩

/-- Witness for C2 with an exception-raising Dispatcher on `2026-03-01`. -/
theorem c2_witness :
    (∀ e ∈ (step cfgDefault DAILY_PLAN oracleExn initState mar1_0830).2,
        e.key ∈ (step cfgDefault DAILY_PLAN oracleExn initState mar1_0830).1.sent_keys) ∧
      ((runTrace cfgDefault DAILY_PLAN oracleExn initState [mar1_0830, mar1_0831]).1 =
          (runTrace cfgDefault DAILY_PLAN oracleOk initState [mar1_0830, mar1_0831]).1 ∧
        (runTrace cfgDefault DAILY_PLAN oracleExn initState
            [mar1_0830, mar1_0831]).2.map eventCore =
          (runTrace cfgDefault DAILY_PLAN oracleOk initState
            [mar1_0830, mar1_0831]).2.map eventCore) ∧
      (∀ u ∈ [mar1_0830, mar1_0830], iterToday u = ⟨2026, 3, 1⟩) ∧
      attemptsFor ⟨2026, 3, 1⟩ entry0830
        (runTrace cfgDefault DAILY_PLAN oracleExn initState
          [mar1_0830, mar1_0830]).2 ≤ 1 :=
  ⟨(c2_unconditional_record cfgDefault oracleExn oracleOk initState mar1_0830).1,
    (c2_unconditional_record cfgDefault oracleExn oracleOk initState mar1_0830).2.1
      [mar1_0830, mar1_0831],
    by decide,
    (c2_unconditional_record cfgDefault oracleExn oracleOk initState mar1_0830).2.2
      ⟨2026, 3, 1⟩ entry0830 [mar1_0830, mar1_0830] (by decide)⟩

/-! ### Claim C3 -/

/-- C3: when an active iteration observes a date different from the recorded
last-seen date, the ledger is cleared and the last-seen date set before any
entry is considered: the iteration behaves exactly as from the fresh initial
state (no recorded key survives the date change), records the new date, and
an entry matching the current minute — even one already dispatched on the
previous date — dispatches exactly once. -/
theorem c3_day_boundary_reset (cfg : AppConfig) (o : Oracle) (s : SchedState)
    (t : PyDateTime)
    (h1 : ¬ Date.lt (iterToday t) cfg.start_date)
    (h2 : s.last_seen_date ≠ some (iterToday t)) :
    step cfg DAILY_PLAN o s t = step cfg DAILY_PLAN o initState t ∧
      (step cfg DAILY_PLAN o s t).1.last_seen_date = some (iterToday t) ∧
      ∀ E ∈ DAILY_PLAN, E.time_24h = iterHM t →
        attemptsFor (iterToday t) E (step cfg DAILY_PLAN o s t).2 = 1 := by
  have hinit : (initState : SchedState).last_seen_date ≠ some (iterToday t) := by
    simp [initState]
  refine ⟨?_, step_last_seen cfg DAILY_PLAN o s t h1, ?_⟩
  · rw [step_active_fresh cfg DAILY_PLAN o s t h1 h2,
      step_active_fresh cfg DAILY_PLAN o initState t h1 hinit]
  · intro E hE ht
    rw [attemptsFor_eq_countItem (step_event_date cfg DAILY_PLAN o s t),
      countItem_eq_count_map, step_fresh_map_items cfg o s t h1 h2]
    unfold dueEntries
    rw [List.count_filter (by simp [ht])]
    exact List.count_eq_one_of_mem daily_plan_nodup hE

/-- The state after `2026-03-01`: the `08:30` key recorded, last-seen date
`2026-03-01`. -/
def s0301 : SchedState :=
  ⟨["2026-03-01-08:30-Morning dry fruits and seeds"], some ⟨2026, 3, 1⟩⟩

/-- Witness for C3 at Scenario C: the `08:30` entry, already recorded on
`2026-03-01`, dispatches exactly once on `2026-03-02` at `08:30`. -/
theorem c3_witness :
    (¬ Date.lt (iterToday mar2_0830) cfgDefault.start_date) ∧
      s0301.last_seen_date ≠ some (iterToday mar2_0830) ∧
      step cfgDefault DAILY_PLAN oracleOk s0301 mar2_0830 =
        step cfgDefault DAILY_PLAN oracleOk initState mar2_0830 ∧
      attemptsFor (iterToday mar2_0830) entry0830
        (step cfgDefault DAILY_PLAN oracleOk s0301 mar2_0830).2 = 1 := by
  have h := c3_day_boundary_reset cfgDefault oracleOk s0301 mar2_0830
    (by decide) (by decide)
  exact ⟨by decide, by decide, h.1, h.2.2 entry0830 (by decide) (by decide)⟩

/-! ### Claim C4 -/

/-- C4: with a fresh per-day ledger, the entries dispatched in an iteration
are exactly the plan entries whose `time_24h` equals the current `HH:MM`, in
plan order; and in any iteration every dispatched entry's time equals the
current `HH:MM` — exact string equality, no tolerance window. -/
theorem c4_due_entries_exact (cfg : AppConfig) (o : Oracle) (s : SchedState)
    (t : PyDateTime)
    (h1 : ¬ Date.lt (iterToday t) cfg.start_date)
    (h2 : s.last_seen_date ≠ some (iterToday t)) :
    (step cfg DAILY_PLAN o s t).2.map (fun e => e.item) =
        dueEntries DAILY_PLAN (iterHM t) ∧
      ∀ e ∈ (step cfg DAILY_PLAN o s t).2, e.item.time_24h = iterHM t := by
  refine ⟨step_fresh_map_items cfg o s t h1 h2, ?_⟩
  intro e he
  rw [step_active_fresh cfg DAILY_PLAN o s t h1 h2] at he
  exact (scan_event_shape _ _ _ _ _ _ e he).2.2.2

/-- Witness for C4: at `2026-03-01 08:30` the dispatched entries are exactly
`[entry0830]`, the sole plan entry scheduled for `08:30`. -/
theorem c4_witness :
    (¬ Date.lt (iterToday mar1_0830) cfgDefault.start_date) ∧
      initState.last_seen_date ≠ some (iterToday mar1_0830) ∧
      (step cfgDefault DAILY_PLAN oracleOk initState mar1_0830).2.map
          (fun e => e.item) = dueEntries DAILY_PLAN (iterHM mar1_0830) ∧
      dueEntries DAILY_PLAN (iterHM mar1_0830) = [entry0830] := by
  have h := c4_due_entries_exact cfgDefault oracleOk initState mar1_0830
    (by decide) (by decide)
  exact ⟨by decide, by decide, h.1, by decide⟩

/-! ### Claim C5 -/

/-- C5: an iteration observing a date strictly before the start date leaves
the state untouched and dispatches nothing (no ledger reset, no last-seen
update — the iteration only sleeps); on or after the start date, a plan
entry matching the current minute is dispatched (shown from a fresh last
seen date). -/
theorem c5_start_date_gate (cfg : AppConfig) (o : Oracle) (s : SchedState)
    (t : PyDateTime) :
    (Date.lt (iterToday t) cfg.start_date →
        step cfg DAILY_PLAN o s t = (s, [])) ∧
      (¬ Date.lt (iterToday t) cfg.start_date →
        s.last_seen_date ≠ some (iterToday t) →
        ∀ E ∈ DAILY_PLAN, E.time_24h = iterHM t →
          ∃ e ∈ (step cfg DAILY_PLAN o s t).2, e.item = E) := by
  refine ⟨fun h => step_waiting cfg DAILY_PLAN o s t h, fun h1 h2 E hE ht => ?_⟩
  have hmap := step_fresh_map_items cfg o s t h1 h2
  have hmem : E ∈ (step cfg DAILY_PLAN o s t).2.map (fun e => e.item) := by
    rw [hmap]
    unfold dueEntries
    exact List.mem_filter.mpr ⟨hE, by simp [ht]⟩
  obtain ⟨e, he, heq⟩ := List.mem_map.mp hmem
  exact ⟨e, he, heq⟩

/-- Witness for C5 at Scenario D: with start date `2026-03-05`, the matching
poll on `2026-03-04` does nothing; the matching poll on `2026-03-05`
dispatches the `08:30` entry. -/
theorem c5_witness :
    Date.lt (iterToday mar4_0830) cfgMar5.start_date ∧
      step cfgMar5 DAILY_PLAN oracleOk initState mar4_0830 = (initState, []) ∧
      (¬ Date.lt (iterToday mar5_0830) cfgMar5.start_date) ∧
      ∃ e ∈ (step cfgMar5 DAILY_PLAN oracleOk initState mar5_0830).2,
        e.item = entry0830 :=
  ⟨by decide,
    (c5_start_date_gate cfgMar5 oracleOk initState mar4_0830).1 (by decide),
    by decide,
    (c5_start_date_gate cfgMar5 oracleOk initState mar5_0830).2 (by decide)
      (by decide) entry0830 (by decide) (by decide)⟩

/-! ### Claim C6 -/

/-- C6 counterexample: the loop keeps no waiting/active state — it re-checks
`today < start_date` every iteration. With start date `2026-03-05`, an
iteration on `2026-03-05` dispatches (the loop is "active"), yet a later
iteration observing `2026-03-04` at a matching minute reverts to waiting
behavior: it changes nothing and dispatches nothing. -/
theorem c6_counterexample :
    (step cfgMar5 DAILY_PLAN oracleOk initState mar5_0830).2 ≠ [] ∧
      Date.lt (iterToday mar4_0830) cfgMar5.start_date ∧
      (∃ E ∈ DAILY_PLAN, E.time_24h = iterHM mar4_0830) ∧
      step cfgMar5 DAILY_PLAN oracleOk
          (step cfgMar5 DAILY_PLAN oracleOk initState mar5_0830).1 mar4_0830 =
        ((step cfgMar5 DAILY_PLAN oracleOk initState mar5_0830).1, []) :=
  ⟨by decide, by decide, by decide, by decide⟩

/-- C6 (amended): the code latches no waiting/active state and re-evaluates
`today >= start_date` each iteration; when the observed dates are
non-decreasing (a monotone clock), once an iteration observes
`today >= start_date` every later iteration does too, so none returns to
waiting behavior: each runs the active path and records the observed date. -/
theorem c6_active_irreversible (cfg : AppConfig) (ts : List PyDateTime)
    (hmono : ts.Pairwise (fun a b => Date.le (iterToday a) (iterToday b)))
    (i j : Nat) (hij : i ≤ j) (hj : j < ts.length)
    (hactive : Date.le cfg.start_date
      (iterToday (ts.get ⟨i, Nat.lt_of_le_of_lt hij hj⟩))) :
    Date.le cfg.start_date (iterToday (ts.get ⟨j, hj⟩)) ∧
      ∀ (o : Oracle) (s : SchedState),
        ¬ Date.lt (iterToday (ts.get ⟨j, hj⟩)) cfg.start_date ∧
          (step cfg DAILY_PLAN o s (ts.get ⟨j, hj⟩)).1.last_seen_date =
            some (iterToday (ts.get ⟨j, hj⟩)) := by
  have hle : Date.le (iterToday (ts.get ⟨i, Nat.lt_of_le_of_lt hij hj⟩))
      (iterToday (ts.get ⟨j, hj⟩)) := by
    rcases Nat.lt_or_ge i j with hlt | hge
    · exact List.pairwise_iff_get.mp hmono ⟨i, Nat.lt_of_le_of_lt hij hj⟩ ⟨j, hj⟩ hlt
    · have hieq : i = j := Nat.le_antisymm hij hge
      subst hieq
      exact Date.le_refl _
  have hj_active := Date.le_trans hactive hle
  have hnl := Date.not_lt_of_le hj_active
  exact ⟨hj_active, fun o s => ⟨hnl, step_last_seen cfg DAILY_PLAN o s _ hnl⟩⟩

/-- Witness for C6 on the monotone trace `[2026-03-05 08:30, 2026-03-05
08:30]` with start date `2026-03-05`. -/
theorem c6_witness :
    Date.le cfgMar5.start_date (iterToday mar5_0830) ∧
      (¬ Date.lt (iterToday mar5_0830) cfgMar5.start_date) ∧
      (step cfgMar5 DAILY_PLAN oracleOk initState mar5_0830).1.last_seen_date =
        some (iterToday mar5_0830) := by
  have h := c6_active_irreversible cfgMar5 [mar5_0830, mar5_0830] (by decide)
    0 1 (by omega) (by decide) (by decide)
  exact ⟨h.1, (h.2 oracleOk initState).1, (h.2 oracleOk initState).2⟩

/-! ### Claim C9 -/

/-- C9: the dispatch key depends only on the date, the entry's time and its
title; two distinct plan entries sharing time and title share a key, and on
any date only the earlier of them in plan order is attempted — the later one
is silently skipped as a duplicate. -/
theorem c9_key_collision (cfg : AppConfig) (o : Oracle) (t : PyDateTime)
    (l1 l2 l3 : List ReminderItem) (e1 e2 : ReminderItem)
    (htime : e1.time_24h = e2.time_24h) (htitle : e1.title = e2.title)
    (hne : e1 ≠ e2) (hmatch : e1.time_24h = iterHM t)
    (hstart : ¬ Date.lt (iterToday t) cfg.start_date)
    (hblock : ∀ x ∈ l1, mkKey (iterToday t) x ≠ mkKey (iterToday t) e1) :
    mkKey (iterToday t) e1 = mkKey (iterToday t) e2 ∧
      (∃ e ∈ (step cfg (l1 ++ e1 :: (l2 ++ e2 :: l3)) o initState t).2,
        e.item = e1) ∧
      ∀ e ∈ (step cfg (l1 ++ e1 :: (l2 ++ e2 :: l3)) o initState t).2,
        e.item ≠ e2 := by
  have hkey : mkKey (iterToday t) e1 = mkKey (iterToday t) e2 := by
    unfold mkKey
    rw [htime, htitle]
  have hinit : (initState : SchedState).last_seen_date ≠ some (iterToday t) := by
    simp [initState]
  rw [step_active_fresh cfg _ o initState t hstart hinit]
  have hK1 : mkKey (iterToday t) e1 ∉
      (scanPlan o (iterToday t) (iterHM t) (iterNow t) l1 []).1 := by
    intro hk
    rcases scan_keys_subset o (iterToday t) (iterHM t) (iterNow t) l1 [] hk with
      h | ⟨i, hi, hieq⟩
    · simp at h
    · exact hblock i hi hieq.symm
  rw [scan_append]
  have hstep2 : scanPlan o (iterToday t) (iterHM t) (iterNow t)
      (e1 :: (l2 ++ e2 :: l3))
      (scanPlan o (iterToday t) (iterHM t) (iterNow t) l1 []).1 =
      ((scanPlan o (iterToday t) (iterHM t) (iterNow t) (l2 ++ e2 :: l3)
          (recordKey (mkKey (iterToday t) e1)
            (scanPlan o (iterToday t) (iterHM t) (iterNow t) l1 []).1)).1,
        ⟨iterToday t, e1, mkKey (iterToday t) e1,
            buildWhatsappMessage e1 (iterNow t), o (mkKey (iterToday t) e1)⟩ ::
          (scanPlan o (iterToday t) (iterHM t) (iterNow t) (l2 ++ e2 :: l3)
            (recordKey (mkKey (iterToday t) e1)
              (scanPlan o (iterToday t) (iterHM t) (iterNow t) l1 []).1)).2) := by
    simp [scanPlan, hmatch, hK1]
  rw [hstep2]
  refine ⟨hkey, ?_, ?_⟩
  · exact ⟨⟨iterToday t, e1, mkKey (iterToday t) e1,
      buildWhatsappMessage e1 (iterNow t), o (mkKey (iterToday t) e1)⟩,
      by simp, rfl⟩
  · intro e he
    simp only [List.mem_append, List.mem_cons] at he
    rcases he with he | he | he
    · have hsh := scan_event_shape o (iterToday t) (iterHM t) (iterNow t) l1 [] e he
      intro hc
      exact hblock e.item hsh.2.2.1 (by rw [hc, ← hkey])
    · subst he
      intro hc
      exact hne hc
    · intro hc
      have hkeyin := mem_recordKey_self (mkKey (iterToday t) e1)
        (scanPlan o (iterToday t) (iterHM t) (iterNow t) l1 []).1
      have hblocked := scan_blocked_key o (iterToday t) (iterHM t) (iterNow t)
        (l2 ++ e2 :: l3) _ hkeyin e he
      have hsh := scan_event_shape o (iterToday t) (iterHM t) (iterNow t)
        (l2 ++ e2 :: l3) _ e he
      exact hblocked (by rw [hsh.2.1, hc, ← hkey])

/-- Clock observation `2026-03-01 07:15`. -/
def t0715 : PyDateTime := ⟨2026, 3, 1, 7, 15, 0, 0⟩

/-- A hypothetical entry sharing time and title with `waterB`. -/
def waterA : ReminderItem := ⟨"07:15", "Water", "Drink one glass."⟩

/-- A hypothetical entry sharing time and title with `waterA` but with a
different body. -/
def waterB : ReminderItem := ⟨"07:15", "Water", "Second glass."⟩

/-- Witness for C9 on the two-entry plan `[waterA, waterB]`: only the first
entry is attempted. -/
theorem c9_witness :
    mkKey (iterToday t0715) waterA = mkKey (iterToday t0715) waterB ∧
      (∃ e ∈ (step cfgDefault ([] ++ waterA :: ([] ++ waterB :: []))
          oracleOk initState t0715).2, e.item = waterA) ∧
      ∀ e ∈ (step cfgDefault ([] ++ waterA :: ([] ++ waterB :: []))
          oracleOk initState t0715).2, e.item ≠ waterB :=
  c9_key_collision cfgDefault oracleOk t0715 [] [] [] waterA waterB
    (by decide) (by decide) (by decide) (by decide) (by decide)
    (by decide)

end DietBot
